import Mathlib

/-!
# Verification of the ticdc snippet: redo-log manager, sink parameters, table actor

This file gives a shallow embedding of `cdc/redo/manager.go` together with
spec-modelled embeddings of the sink-parameter layer and the table actor
(whose implementations are exercised only through tests in the snippet),
and proves or refutes the frozen claims about them.

Conventions of the embedding:
* Go `int64` table ids become `Int`; Go `uint64` timestamps become `Nat`
  (all writer-supplied values are below `2^64`; the only arithmetic is `min`,
  which cannot overflow, and `math.MaxUint64` is written `2^64 - 1`).
* A Go map is an association list with unique keys; map assignment replaces
  the first binding or appends, `delete` drops the first binding.
* Fallible Go functions return `Except`; a Go `panic` (nil-map write,
  nil-pointer dereference) is modelled as `Option.none` around the result.
-/

namespace Ticdc

/-! ## Association-list model of a Go `map[int64]uint64` -/

/-- Keys of an association list (the Go map's key set, in insertion order). -/
def keysOf (l : List (Int × Nat)) : List Int := l.map Prod.fst

/-- Go map assignment `m[k] = v`: replace the first binding of `k`, else append. -/
def mapInsert (l : List (Int × Nat)) (k : Int) (v : Nat) : List (Int × Nat) :=
  match l with
  | [] => [(k, v)]
  | (a, b) :: rest => if a = k then (k, v) :: rest else (a, b) :: mapInsert rest k v

/-- Go map deletion `delete(m, k)`: drop the first binding of `k`. -/
def mapErase (l : List (Int × Nat)) (k : Int) : List (Int × Nat) :=
  match l with
  | [] => []
  | (a, b) :: rest => if a = k then rest else (a, b) :: mapErase rest k

/-! ## `sort.Search` and the slice surgery of `AddTable` / `RemoveTable`

`sort.Search(n, f)` returns the smallest index at which the (monotone)
predicate holds, or `n` when it never holds.  `AddTable`/`RemoveTable` call it
with predicate `tableIDs[i] >= tableID` on the ascending slice `tableIDs`,
so the contractually specified result is the first index whose element is
`≥ tableID`; we embed exactly that. -/

/-- First index of `l` holding an element `≥ t` (length of `l` when none does):
the result of `sort.Search(len(l), func(i) { return l[i] >= t })` on an
ascending slice. -/
def sortSearchGe (l : List Int) (t : Int) : Nat :=
  match l with
  | [] => 0
  | x :: xs => if t ≤ x then 0 else sortSearchGe xs t + 1

/-- The slice update performed by `AddTable` on `m.tableIDs`:
look up the insertion point `i`; if `tableIDs[i] == tableID` the slice is kept
(duplicate add), otherwise `tableID` is spliced in at `i`
(`append(tableIDs[:i+1], tableIDs[i:]...)` followed by `tableIDs[i] = tableID`,
or a plain `append` when `i == len`). -/
def addTableList (l : List Int) (t : Int) : List Int :=
  let i := sortSearchGe l t
  match l[i]? with
  | some x => if x = t then l else l.take i ++ t :: l.drop i
  | none => l ++ [t]

/-- The slice update performed by `RemoveTable` on `m.tableIDs`:
if `tableIDs[i] == tableID` at the search point `i`, the element is removed
(`copy(tableIDs[i:], tableIDs[i+1:])` and truncation), else nothing changes. -/
def removeTableList (l : List Int) (t : Int) : List Int :=
  let i := sortSearchGe l t
  match l[i]? with
  | some x => if x = t then l.take i ++ l.drop (i + 1) else l
  | none => l

/-! ## Redo-log data model (`cdc/redo/manager.go` and the model package) -/

/-- Row-change event; only the fields the manager touches are kept
(`model.RowChangedEvent` carries more payload, none of it read here). -/
structure RowChangedEvent where
  tableID : Int
  commitTs : Nat
deriving DecidableEq

/-- `model.RedoRowChangedEvent`: a row wrapped as a redo record. -/
structure RedoRowChangedEvent where
  row : RowChangedEvent
deriving DecidableEq

/-- DDL event, payload irrelevant to the manager. -/
structure DDLEvent where
  commitTs : Nat
  query : String
deriving DecidableEq

/-- `model.RedoDDLEvent`: a DDL event wrapped as a redo record. -/
structure RedoDDLEvent where
  ddl : DDLEvent
deriving DecidableEq

/-- Modelled from the spec: `RowToRedo` (convert file of the redo package,
not in the snippet) wraps a row-change event as a redo log record. -/
def RowToRedo (row : RowChangedEvent) : RedoRowChangedEvent := ⟨row⟩

/-- Modelled from the spec: `DDLToRedo` wraps a DDL event as a redo record. -/
def DDLToRedo (ddl : DDLEvent) : RedoDDLEvent := ⟨ddl⟩

/-- Errors surfaced by the redo subsystem. -/
inductive RedoErr where
  /-- `cerror.ErrInvalidS3URI` -/
  | invalidS3URI : RedoErr
  /-- `cerror.ErrConsistentStorage`, carrying the offending storage string -/
  | consistentStorage (storage : String) : RedoErr
  /-- an error returned by the backing writer -/
  | writerErr (code : Nat) : RedoErr
deriving DecidableEq

/-- The behaviour of a `writer.RedoLogWriter`, as the pure response functions
of its six methods (contexts dropped; `WriteLog` returns a count in Go whose
value the manager discards). -/
structure RedoLogWriter where
  writeLog : Int → List RedoRowChangedEvent → Except RedoErr Nat
  flushLog : Int → Nat → Except RedoErr Unit
  sendDDL : RedoDDLEvent → Except RedoErr Unit
  emitResolvedTs : Nat → Except RedoErr Unit
  emitCheckpointTs : Nat → Except RedoErr Unit
  getCurrentResolvedTs : List Int → Except RedoErr (List (Int × Nat))

/-- `ManagerImpl`.  `writer = none` and `rtsMap = none` model the nil writer
and nil map of a manager built on the disabled path of `NewManager`. -/
structure ManagerImpl where
  enabled : Bool
  level : String
  storage : String
  writer : Option RedoLogWriter
  minResolvedTs : Nat
  tableIDs : List Int
  rtsMap : Option (List (Int × Nat))

/-- `Enabled`. -/
def Enabled (m : ManagerImpl) : Bool := m.enabled

/-- `GetMinResolvedTs`: an atomic load of `minResolvedTs`. -/
def GetMinResolvedTs (m : ManagerImpl) : Nat := m.minResolvedTs

/-- `EmitRowChangedEvents`: wraps each row via `RowToRedo` and calls
`writer.WriteLog`, returning its error verbatim.  There is no `enabled`
guard in the method; on a disabled manager the nil writer is dereferenced,
a panic (`none`). -/
def EmitRowChangedEvents (m : ManagerImpl) (tableID : Int)
    (rows : List RowChangedEvent) : Option (Except RedoErr Unit) :=
  m.writer.map fun w => (w.writeLog tableID (rows.map RowToRedo)).map fun _ => ()

/-- `FlushLog`: delegates to `writer.FlushLog`; no `enabled` guard. -/
def FlushLog (m : ManagerImpl) (tableID : Int) (resolvedTs : Nat) :
    Option (Except RedoErr Unit) :=
  m.writer.map fun w => w.flushLog tableID resolvedTs

/-- `EmitDDLEvent`: delegates to `writer.SendDDL`; no `enabled` guard. -/
def EmitDDLEvent (m : ManagerImpl) (ddl : DDLEvent) : Option (Except RedoErr Unit) :=
  m.writer.map fun w => w.sendDDL (DDLToRedo ddl)

/-- `FlushResolvedAndCheckpointTs`: emits the resolved ts, then (only on
success) the checkpoint ts; no `enabled` guard. -/
def FlushResolvedAndCheckpointTs (m : ManagerImpl) (resolvedTs checkpointTs : Nat) :
    Option (Except RedoErr Unit) :=
  m.writer.map fun w =>
    match w.emitResolvedTs resolvedTs with
    | .error e => .error e
    | .ok _ => w.emitCheckpointTs checkpointTs

/-- `AddTable`: a `sort.Search` duplicate check on `tableIDs`; a duplicate is
warned and ignored, otherwise the id is spliced into `tableIDs` and
`rtsMap[tableID] = startTs` is written.  The map write on the nil map of a
disabled manager panics (`none`). -/
def AddTable (m : ManagerImpl) (tableID : Int) (startTs : Nat) :
    Option ManagerImpl :=
  if m.tableIDs[sortSearchGe m.tableIDs tableID]? = some tableID then
    some m
  else
    match m.rtsMap with
    | none => none
    | some mp =>
        some { m with
          tableIDs := addTableList m.tableIDs tableID,
          rtsMap := some (mapInsert mp tableID startTs) }

/-- `RemoveTable`: if the id is found at the `sort.Search` point it is removed
from `tableIDs` and deleted from `rtsMap`; a missing id is warned and the
state is unchanged.  (Go's `delete` on a nil map is a no-op, so this method
never panics.) -/
def RemoveTable (m : ManagerImpl) (tableID : Int) : ManagerImpl :=
  if m.tableIDs[sortSearchGe m.tableIDs tableID]? = some tableID then
    { m with
      tableIDs := removeTableList m.tableIDs tableID,
      rtsMap := m.rtsMap.map fun mp => mapErase mp tableID }
  else m

/-- The minimum computed by `updateTableResolvedTs`'s loop:
`minResolvedTs := math.MaxUint64`, then `if rts < minResolvedTs { ... }`
over every entry of the writer-returned map. -/
def minFold (report : List (Int × Nat)) : Nat :=
  report.foldl (fun acc kv => if kv.2 < acc then kv.2 else acc) (2 ^ 64 - 1)

/-- Body of `updateTableResolvedTs` once the writer has returned `report`:
each reported pair is written into `rtsMap` and the running minimum is
published into `minResolvedTs` (kept separate here; the interleaved Go loop
computes the same map and the same minimum).  Writing a non-empty report
into the nil map of a disabled manager panics (`none`); an empty report
leaves the nil map untouched and still publishes `MaxUint64`. -/
def updateWithReport (report : List (Int × Nat)) (m : ManagerImpl) :
    Option ManagerImpl :=
  match m.rtsMap with
  | some mp =>
      some { m with
        rtsMap := some (report.foldl (fun acc kv => mapInsert acc kv.1 kv.2) mp),
        minResolvedTs := minFold report }
  | none =>
      if report.isEmpty then some { m with minResolvedTs := minFold report }
      else none

/-- `updateTableResolvedTs`: asks `writer.GetCurrentResolvedTs` for the
current resolved ts of every id in `tableIDs` and applies the report;
a writer error is returned as-is, a nil writer or nil-map write panics. -/
def updateTableResolvedTs (m : ManagerImpl) : Option (Except RedoErr ManagerImpl) :=
  match m.writer with
  | none => none
  | some w =>
      match w.getCurrentResolvedTs m.tableIDs with
      | .error e => some (.error e)
      | .ok report =>
          match updateWithReport report m with
          | none => none
          | some mNext => some (.ok mNext)

/-- `GetMinResolvedTs` observed after one successful background tick
(`none` when the tick panics or returns a writer error). -/
def tickMin (m : ManagerImpl) : Option Nat :=
  match updateTableResolvedTs m with
  | some (.ok mNext) => some (GetMinResolvedTs mNext)
  | _ => none

/-- One successful background tick as a state transformer. -/
def tickOk (m : ManagerImpl) : Option ManagerImpl :=
  match updateTableResolvedTs m with
  | some (.ok mNext) => some mNext
  | _ => none

/-! ## Construction (`NewManager`) -/

/-- `config.ConsistentConfig`. -/
structure ConsistentConfig where
  level : String
  storage : String
  maxLogSize : Nat
  flushIntervalInMs : Nat
  s3URI : String
deriving DecidableEq

/-- `IsValidConsistentLevel`. -/
def IsValidConsistentLevel (level : String) : Bool :=
  level = "normal" || level = "eventual"

/-- `IsValidConsistentStorage`. -/
def IsValidConsistentStorage (storage : String) : Bool :=
  storage = "local" || storage = "s3" || storage = "blackhole"

/-- Modelled from the spec: `writer.NewBlackHoleWriter` (writer package not in
the snippet) accepts everything, drops it and returns success; its resolved-ts
query reports nothing. -/
def blackHoleWriter : RedoLogWriter where
  writeLog := fun _ logs => .ok logs.length
  flushLog := fun _ _ => .ok ()
  sendDDL := fun _ => .ok ()
  emitResolvedTs := fun _ => .ok ()
  emitCheckpointTs := fun _ => .ok ()
  getCurrentResolvedTs := fun _ => .ok []

/-- The manager built on the short-circuit path of `NewManager`
(`cfg == nil` or level `normal`): only `enabled` is set, every other field
keeps its Go zero value — in particular the writer and the map are nil. -/
def disabledManager : ManagerImpl where
  enabled := false
  level := ""
  storage := ""
  writer := none
  minResolvedTs := 0
  tableIDs := []
  rtsMap := none

/-- The enabled manager assembled by `NewManager` before the storage switch:
level and storage copied from the config, a fresh empty `rtsMap`, and
(after the switch) the chosen writer. -/
def enabledManager (cfg : ConsistentConfig) (w : RedoLogWriter) : ManagerImpl where
  enabled := true
  level := cfg.level
  storage := cfg.storage
  writer := some w
  minResolvedTs := 0
  tableIDs := []
  rtsMap := some []

/-- `NewManager`.  `logWriter` stands for the writer built by
`writer.NewLogWriter` on the local/S3 path and `s3ParseOk` for success of
`url.Parse` on the S3 URI (both outside the snippet).  A nil config or level
`normal` short-circuits to a disabled manager; otherwise the storage switch
selects a writer, rejecting anything outside local/s3/blackhole with
`ErrConsistentStorage` — the level itself is never validated here. -/
def NewManager (logWriter : RedoLogWriter) (s3ParseOk : String → Bool)
    (cfg : Option ConsistentConfig) : Except RedoErr ManagerImpl :=
  match cfg with
  | none => .ok disabledManager
  | some c =>
      if c.level = "normal" then .ok disabledManager
      else if c.storage = "blackhole" then .ok (enabledManager c blackHoleWriter)
      else if c.storage = "local" ∨ c.storage = "s3" then
        if c.storage = "s3" ∧ s3ParseOk c.s3URI = false then .error .invalidS3URI
        else .ok (enabledManager c logWriter)
      else .error (.consistentStorage c.storage)

/-- Whether an `Except` is a success. -/
def exceptIsOk {ε α : Type} (e : Except ε α) : Bool :=
  match e with
  | .ok _ => true
  | .error _ => false

/-- `enabled` of the manager a successful `NewManager` returns
(`false` when construction failed; used only to observe the success case). -/
def builtEnabled (e : Except RedoErr ManagerImpl) : Bool :=
  match e with
  | .ok m => m.enabled
  | .error _ => false

/-! ## Sequences of `AddTable` / `RemoveTable` calls -/

/-- One public table-tracking call on the manager. -/
inductive RedoOp where
  | add (tableID : Int) (startTs : Nat) : RedoOp
  | remove (tableID : Int) : RedoOp

/-- Apply one call (`none` propagates a panic). -/
def applyOp (m : ManagerImpl) : RedoOp → Option ManagerImpl
  | .add t s => AddTable m t s
  | .remove t => some (RemoveTable m t)

/-- Apply a sequence of calls left to right. -/
def applyOps : List RedoOp → ManagerImpl → Option ManagerImpl
  | [], m => some m
  | op :: ops, m =>
      match applyOp m op with
      | none => none
      | some mNext => applyOps ops mNext

/-- A freshly constructed enabled manager (the `blackhole` branch of
`NewManager` with an eventual-level config). -/
def freshManager (w : RedoLogWriter) : ManagerImpl :=
  { enabledManager ⟨"eventual", "blackhole", 0, 0, ""⟩ blackHoleWriter with
    writer := some w }

/-! ## Concrete scenarios used by the closed theorems -/

/-- Writer for the spec's redo min-ts scenario: reports
`{1:120, 2:220, 3:160}` while asked about tables `[1, 2, 3]` and
`{2:220, 3:160}` once table 1 is gone. -/
def scenarioWriter : RedoLogWriter :=
  { blackHoleWriter with
    getCurrentResolvedTs := fun ids =>
      if ids = [1, 2, 3] then .ok [(1, 120), (2, 220), (3, 160)]
      else if ids = [2, 3] then .ok [(2, 220), (3, 160)]
      else .ok [] }

/-- State used by the monotonicity witness: a fresh manager before any tick. -/
def monoM0 : ManagerImpl := freshManager blackHoleWriter

/-- `monoM0` after a tick whose report was `[(1, 5)]`. -/
def monoM1 : ManagerImpl :=
  { monoM0 with rtsMap := some [(1, 5)], minResolvedTs := 5 }

/-- `monoM1` after a tick whose report was `[(1, 7)]`. -/
def monoM2 : ManagerImpl :=
  { monoM1 with rtsMap := some [(1, 7)], minResolvedTs := 7 }

/-! ## Table actor (modelled from the spec)

The table-actor implementation is exercised only through
`cdc/processor/pipeline/actor_test.go` in the snippet; the control-message
handling below is modelled from the spec, §4.3: a `Stop` sets `stopped` and
the transition is one-way, a `Barrier` is forwarded monotonically (a lower-ts
barrier is ignored with a warning), and a stopped actor processes no further
messages. -/

/-- Control messages delivered to a table actor's mailbox. -/
inductive ActorMessage where
  | barrier (ts : Nat) : ActorMessage
  | stop : ActorMessage
  | tick : ActorMessage

/-- Modelled from the spec: the per-table actor state visible to the claims
(`{tableID, tableName, startTs, stages, …}` carry no control semantics). -/
structure TableActorState where
  stopped : Bool
  barrierTs : Nat
  startTs : Nat
deriving DecidableEq

/-- Modelled from the spec: a fresh actor for a table replicated from
`startTs`; `barrierTs ≥ startTs` holds from the start. -/
def newActorState (startTs : Nat) : TableActorState :=
  { stopped := false, barrierTs := startTs, startTs := startTs }

/-- Modelled from the spec: how the actor handles one control message.
A stopped actor processes nothing; `Stop` is one-way; a barrier below the
current one is ignored. -/
def actorHandle (s : TableActorState) (msg : ActorMessage) : TableActorState :=
  if s.stopped then s
  else
    match msg with
    | .barrier ts => if s.barrierTs ≤ ts then { s with barrierTs := ts } else s
    | .stop => { s with stopped := true }
    | .tick => s

/-- Modelled from the spec: the actor drains its mailbox in delivery order. -/
def actorRun (s : TableActorState) (msgs : List ActorMessage) : TableActorState :=
  msgs.foldl actorHandle s

/-! ## Sink parameters (modelled from the spec)

`mysql_params.go` is exercised only through `cdc/sink/mysql_params_test.go`
in the snippet; the parameter record, `parseSinkURIToParams` and
`generateDSNByParams` below are modelled from the spec, §4.5.  Durations are
kept as their URI literals; the rendered DSN is modelled as its list of
`key=value` parameters (the claims only ever ask about containment). -/

/-- Modelled from the spec: `sinkParams`.  `timeoutProvided` records whether
the user supplied the `timeout` query key, which the spec makes the condition
for rendering `timeout` into the DSN. -/
structure sinkParams where
  workerCount : Nat
  maxTxnRow : Nat
  tidbTxnMode : String
  batchReplaceEnabled : Bool
  batchReplaceSize : Nat
  readTimeout : String
  writeTimeout : String
  dialTimeout : String
  safeMode : Bool
  timezone : String
  changefeedID : String
  captureAddr : String
  timeoutProvided : Bool
deriving DecidableEq

/-- Modelled from the spec: `defaultParams`, the default parameter record. -/
def defaultParams : sinkParams where
  workerCount := 16
  maxTxnRow := 256
  tidbTxnMode := "optimistic"
  batchReplaceEnabled := true
  batchReplaceSize := 20
  readTimeout := "2m"
  writeTimeout := "2m"
  dialTimeout := "2s"
  safeMode := false
  timezone := ""
  changefeedID := ""
  captureAddr := ""
  timeoutProvided := false

/-- Modelled from the spec: `params.Clone()` copies every field. -/
def sinkParams.Clone (p : sinkParams) : sinkParams where
  workerCount := p.workerCount
  maxTxnRow := p.maxTxnRow
  tidbTxnMode := p.tidbTxnMode
  batchReplaceEnabled := p.batchReplaceEnabled
  batchReplaceSize := p.batchReplaceSize
  readTimeout := p.readTimeout
  writeTimeout := p.writeTimeout
  dialTimeout := p.dialTimeout
  safeMode := p.safeMode
  timezone := p.timezone
  changefeedID := p.changefeedID
  captureAddr := p.captureAddr
  timeoutProvided := p.timeoutProvided

/-- Errors of `parseSinkURIToParams` (spec §4.5 failure modes). -/
inductive SinkErr where
  | invalidURI : SinkErr
  | invalidScheme (scheme : String) : SinkErr
  | invalidNumber (key : String) : SinkErr
  | invalidBool (key : String) : SinkErr
  | invalidDuration (key : String) : SinkErr
  | partialTLS : SinkErr
deriving DecidableEq

/-- A sink URI reduced to what the parser reads: its scheme and query pairs
(a key present with empty value is `(k, "")`; an absent key has no pair). -/
structure SinkURI where
  scheme : String
  query : List (String × String)

/-- Option-map key carrying the changefeed id. -/
def OptChangefeedID : String := "_changefeed_id"

/-- Option-map key carrying the capture address. -/
def OptCaptureAddr : String := "_capture_addr"

/-- Decimal-literal parser (the `strconv.Atoi` of the model, restricted to
the non-negative numerals the URI layer accepts). -/
def parseNatLit (s : String) : Option Nat :=
  if s.data ≠ [] ∧ s.data.all Char.isDigit then
    some (s.data.foldl (fun acc c => acc * 10 + (c.toNat - 48)) 0)
  else none

/-- Modelled from the spec: a positive-integer query parameter; absent or
empty keeps the default, non-numeric fails, a non-positive number keeps the
default. -/
def getNatParam (q : List (String × String)) (key : String) (dflt : Nat) :
    Except SinkErr Nat :=
  match List.lookup key q with
  | none => .ok dflt
  | some "" => .ok dflt
  | some s =>
      match parseNatLit s with
      | none => .error (.invalidNumber key)
      | some n => .ok (if 1 ≤ n then n else dflt)

/-- Modelled from the spec: a boolean query parameter; absent or empty keeps
the default, anything but a boolean literal fails. -/
def getBoolParam (q : List (String × String)) (key : String) (dflt : Bool) :
    Except SinkErr Bool :=
  match List.lookup key q with
  | none => .ok dflt
  | some "" => .ok dflt
  | some "true" => .ok true
  | some "false" => .ok false
  | some _ => .error (.invalidBool key)

/-- Whether a string is one of the duration literals `{Nms, Ns, Nm, Nh}`. -/
def durCheck (s : String) (unit : String) : Bool :=
  unit.data.isSuffixOf s.data &&
    (s.data.take (s.data.length - unit.data.length)).all Char.isDigit &&
    decide (unit.data.length < s.data.length)

/-- Whether a string is an accepted duration literal. -/
def isDurationLit (s : String) : Bool :=
  durCheck s "ms" || durCheck s "s" || durCheck s "m" || durCheck s "h"

/-- Modelled from the spec: a duration query parameter, kept as its literal;
`some` means the user supplied it, absent or empty means not supplied,
an unparseable value fails the whole parse. -/
def getDurationParam (q : List (String × String)) (key : String) :
    Except SinkErr (Option String) :=
  match List.lookup key q with
  | none => .ok none
  | some "" => .ok none
  | some s => if isDurationLit s then .ok (some s) else .error (.invalidDuration key)

/-- Modelled from the spec: `tidb-txn-mode`; an unrecognized mode keeps the
default (logged as a warning, not a failure mode). -/
def getTxnMode (q : List (String × String)) : String :=
  match List.lookup "tidb-txn-mode" q with
  | some "optimistic" => "optimistic"
  | some "pessimistic" => "pessimistic"
  | _ => "optimistic"

/-- Modelled from the spec: the `time-zone` query key; an absent key yields
the quoted `"UTC"`, an explicitly empty value yields the empty string, and a
non-empty value is kept in its double-quoted form. -/
def getTimezoneParam (q : List (String × String)) : String :=
  match List.lookup "time-zone" q with
  | none => "\"UTC\""
  | some "" => ""
  | some s => "\"" ++ s ++ "\""

/-- Modelled from the spec: the `ssl-ca`/`ssl-cert`/`ssl-key` triple must be
supplied together or not at all (empty counts as absent). -/
def tlsOk (q : List (String × String)) : Bool :=
  let present := fun key => match List.lookup key q with
    | none => false
    | some "" => false
    | some _ => true
  present "ssl-ca" = present "ssl-cert" && present "ssl-cert" = present "ssl-key"

/-- Modelled from the spec: `parseSinkURIToParams` — validates the scheme,
reads every recognized query key into a fresh copy of the defaults, and takes
the changefeed id and capture address from the options map. -/
def parseSinkURIToParams (uri : Option SinkURI) (opts : List (String × String)) :
    Except SinkErr sinkParams :=
  match uri with
  | none => .error .invalidURI
  | some u =>
      if u.scheme ≠ "mysql" ∧ u.scheme ≠ "tidb" then .error (.invalidScheme u.scheme)
      else do
        let wc ← getNatParam u.query "worker-count" 16
        let mtr ← getNatParam u.query "max-txn-row" 256
        let bre ← getBoolParam u.query "batch-replace-enable" true
        let brs ← getNatParam u.query "batch-replace-size" 20
        let sm ← getBoolParam u.query "safe-mode" false
        let rt ← getDurationParam u.query "read-timeout"
        let wt ← getDurationParam u.query "write-timeout"
        let dt ← getDurationParam u.query "timeout"
        if tlsOk u.query = false then .error .partialTLS
        else
          .ok { workerCount := wc
                maxTxnRow := mtr
                tidbTxnMode := getTxnMode u.query
                batchReplaceEnabled := bre
                batchReplaceSize := brs
                readTimeout := rt.getD "2m"
                writeTimeout := wt.getD "2m"
                dialTimeout := dt.getD "2s"
                safeMode := sm
                timezone := getTimezoneParam u.query
                changefeedID := (List.lookup OptChangefeedID opts).getD ""
                captureAddr := (List.lookup OptCaptureAddr opts).getD ""
                timeoutProvided := dt.isSome }

/-- Modelled from the spec: `generateDSNByParams` renders the DSN parameter
map on top of the base DSN's parameters — `tidb_txn_mode`, `readTimeout`,
`writeTimeout` and `allow_auto_random_explicit_insert=1` unconditionally,
`time_zone` only for a non-empty timezone, `timeout` only when the user
supplied it.  (The `show session variables` probe of the downstream is an
I/O concern the claims do not touch and is not modelled.) -/
def generateDSNByParams (base : List (String × String)) (p : sinkParams) :
    List (String × String) :=
  let l := [("tidb_txn_mode", p.tidbTxnMode),
            ("readTimeout", p.readTimeout),
            ("writeTimeout", p.writeTimeout),
            ("allow_auto_random_explicit_insert", "1")]
  let l := if p.timezone ≠ "" then ("time_zone", p.timezone) :: l else l
  let l := if p.timeoutProvided then ("timeout", p.dialTimeout) :: l else l
  base ++ l

/-- Whether the rendered DSN carries a parameter named `key`. -/
def dsnHasKey (key : String) (dsn : List (String × String)) : Bool :=
  dsn.any fun kv => kv.1 = key

/-- Writer for the monotonicity counterexample: every table's resolved ts is
constant over time (table 1 at 50, table 2 at 160); only the set of queried
tables varies. -/
def decWriter : RedoLogWriter :=
  { blackHoleWriter with
    getCurrentResolvedTs := fun ids =>
      if ids = [1, 2] then .ok [(1, 50), (2, 160)]
      else if ids = [2] then .ok [(2, 160)]
      else .ok [] }

/-- The parameter record produced by parsing
`mysql://…/?time-zone=Asia/Shanghai&worker-count=32`. -/
def shanghaiParams : sinkParams :=
  { defaultParams with workerCount := 32, timezone := "\"Asia/Shanghai\"" }

/-- The parameter record produced by parsing
`mysql://…/?read-timeout=4m&write-timeout=5m&timeout=3m`. -/
def timeoutParams : sinkParams :=
  { defaultParams with
    readTimeout := "4m"
    writeTimeout := "5m"
    dialTimeout := "3m"
    timeoutProvided := true
    timezone := "\"UTC\"" }

/-! ## Lemmas: `sort.Search`-based slice surgery on sorted slices -/

theorem sortSearchGe_cons_le {x t : Int} (xs : List Int) (h : t ≤ x) :
    sortSearchGe (x :: xs) t = 0 := by
  simp [sortSearchGe, h]

theorem sortSearchGe_cons_gt {x t : Int} (xs : List Int) (h : ¬t ≤ x) :
    sortSearchGe (x :: xs) t = sortSearchGe xs t + 1 := by
  simp [sortSearchGe, h]

theorem addTableList_nil (t : Int) : addTableList [] t = [t] := rfl

theorem addTableList_cons_le {x t : Int} (xs : List Int) (h : t ≤ x) :
    addTableList (x :: xs) t = if x = t then x :: xs else t :: x :: xs := by
  simp [addTableList, sortSearchGe_cons_le xs h]

theorem addTableList_cons_gt {x t : Int} (xs : List Int) (h : ¬t ≤ x) :
    addTableList (x :: xs) t = x :: addTableList xs t := by
  unfold addTableList
  rw [sortSearchGe_cons_gt xs h]
  cases hg : xs[sortSearchGe xs t]? with
  | none => simp [hg]
  | some y =>
      simp only [List.getElem?_cons_succ, hg]
      by_cases hy : y = t <;> simp [hy, List.take_succ_cons, List.drop_succ_cons]

theorem mem_addTableList {l : List Int} {t a : Int} :
    a ∈ addTableList l t ↔ a = t ∨ a ∈ l := by
  induction l with
  | nil => simp [addTableList_nil]
  | cons x xs ih =>
      by_cases h : t ≤ x
      · rw [addTableList_cons_le xs h]
        by_cases hx : x = t
        · rw [if_pos hx]
          subst hx
          simp only [List.mem_cons]
          tauto
        · rw [if_neg hx]
          simp [List.mem_cons]
      · rw [addTableList_cons_gt xs h]
        simp only [List.mem_cons, ih]
        tauto

theorem sorted_addTableList {l : List Int} {t : Int}
    (h : List.Sorted (· < ·) l) : List.Sorted (· < ·) (addTableList l t) := by
  induction l with
  | nil => simp [addTableList_nil]
  | cons x xs ih =>
      rw [List.sorted_cons] at h
      obtain ⟨hx, hxs⟩ := h
      by_cases hle : t ≤ x
      · rw [addTableList_cons_le xs hle]
        by_cases hx2 : x = t
        · rw [if_pos hx2]
          exact List.sorted_cons.2 ⟨hx, hxs⟩
        · rw [if_neg hx2]
          have hlt : t < x := lt_of_le_of_ne hle (fun e => hx2 e.symm)
          refine List.sorted_cons.2 ⟨?_, List.sorted_cons.2 ⟨hx, hxs⟩⟩
          intro b hb
          rcases List.mem_cons.1 hb with rfl | hb
          · exact hlt
          · exact lt_trans hlt (hx b hb)
      · rw [addTableList_cons_gt xs hle]
        refine List.sorted_cons.2 ⟨?_, ih hxs⟩
        intro b hb
        rcases mem_addTableList.1 hb with rfl | hb
        · omega
        · exact hx b hb

theorem sortSearchGe_found_iff {l : List Int} {t : Int}
    (h : List.Sorted (· < ·) l) :
    l[sortSearchGe l t]? = some t ↔ t ∈ l := by
  induction l with
  | nil => simp [sortSearchGe]
  | cons x xs ih =>
      rw [List.sorted_cons] at h
      obtain ⟨hx, hxs⟩ := h
      by_cases hle : t ≤ x
      · rw [sortSearchGe_cons_le xs hle]
        constructor
        · intro he
          simp at he
          simp [he]
        · intro hm
          rcases List.mem_cons.1 hm with rfl | hm
          · simp
          · have := hx t hm
            omega
      · rw [sortSearchGe_cons_gt xs hle]
        simp only [List.getElem?_cons_succ, List.mem_cons]
        rw [ih hxs]
        constructor
        · intro hm; exact Or.inr hm
        · rintro (rfl | hm)
          · omega
          · exact hm

theorem removeTableList_cons_le {x t : Int} (xs : List Int) (h : t ≤ x) :
    removeTableList (x :: xs) t = if x = t then xs else x :: xs := by
  simp [removeTableList, sortSearchGe_cons_le xs h]

theorem removeTableList_cons_gt {x t : Int} (xs : List Int) (h : ¬t ≤ x) :
    removeTableList (x :: xs) t = x :: removeTableList xs t := by
  unfold removeTableList
  rw [sortSearchGe_cons_gt xs h]
  cases hg : xs[sortSearchGe xs t]? with
  | none => simp [hg]
  | some y =>
      simp only [List.getElem?_cons_succ, hg]
      by_cases hy : y = t <;> simp [hy, List.take_succ_cons, List.drop_succ_cons]

theorem mem_removeTableList {l : List Int} {t a : Int}
    (h : List.Sorted (· < ·) l) :
    a ∈ removeTableList l t ↔ a ∈ l ∧ a ≠ t := by
  induction l with
  | nil => simp [removeTableList]
  | cons x xs ih =>
      rw [List.sorted_cons] at h
      obtain ⟨hx, hxs⟩ := h
      by_cases hle : t ≤ x
      · rw [removeTableList_cons_le xs hle]
        by_cases hx2 : x = t
        · subst hx2
          rw [if_pos rfl]
          constructor
          · intro hm
            exact ⟨List.mem_cons_of_mem _ hm, by have := hx a hm; omega⟩
          · rintro ⟨hm, hne⟩
            rcases List.mem_cons.1 hm with rfl | hm
            · exact absurd rfl hne
            · exact hm
        · have hlt : t < x := lt_of_le_of_ne hle (fun e => hx2 e.symm)
          rw [if_neg hx2]
          simp only [List.mem_cons]
          constructor
          · rintro (rfl | hm)
            · exact ⟨Or.inl rfl, by omega⟩
            · exact ⟨Or.inr hm, by have := hx a hm; omega⟩
          · rintro ⟨hm, _⟩
            exact hm
      · rw [removeTableList_cons_gt xs hle]
        simp only [List.mem_cons, ih hxs]
        constructor
        · rintro (rfl | ⟨hm, hne⟩)
          · exact ⟨Or.inl rfl, by omega⟩
          · exact ⟨Or.inr hm, hne⟩
        · rintro ⟨rfl | hm, hne⟩
          · exact Or.inl rfl
          · exact Or.inr ⟨hm, hne⟩

theorem sorted_removeTableList {l : List Int} {t : Int}
    (h : List.Sorted (· < ·) l) : List.Sorted (· < ·) (removeTableList l t) := by
  induction l with
  | nil => simp [removeTableList]
  | cons x xs ih =>
      rw [List.sorted_cons] at h
      obtain ⟨hx, hxs⟩ := h
      by_cases hle : t ≤ x
      · rw [removeTableList_cons_le xs hle]
        by_cases hx2 : x = t
        · rw [if_pos hx2]
          exact hxs
        · rw [if_neg hx2]
          exact List.sorted_cons.2 ⟨hx, hxs⟩
      · rw [removeTableList_cons_gt xs hle]
        refine List.sorted_cons.2 ⟨?_, ih hxs⟩
        intro b hb
        exact hx b ((mem_removeTableList hxs).1 hb).1

theorem removeTableList_not_mem {l : List Int} {t : Int} (h : t ∉ l) :
    removeTableList l t = l := by
  unfold removeTableList
  cases hg : l[sortSearchGe l t]? with
  | none => simp [hg]
  | some y =>
      by_cases hy : y = t
      · exact absurd (hy ▸ List.getElem?_mem hg) h
      · simp [hg, hy]

/-! ## Lemmas: the association-list map -/

theorem keysOf_nil : keysOf [] = [] := rfl

theorem keysOf_cons (a : Int) (b : Nat) (rest : List (Int × Nat)) :
    keysOf ((a, b) :: rest) = a :: keysOf rest := rfl

theorem keysOf_mapInsert_mem {mp : List (Int × Nat)} {k : Int} (v : Nat)
    (h : k ∈ keysOf mp) : keysOf (mapInsert mp k v) = keysOf mp := by
  induction mp with
  | nil => simp [keysOf] at h
  | cons ab rest ih =>
      obtain ⟨a, b⟩ := ab
      rw [keysOf_cons] at h
      by_cases ha : a = k
      · simp [mapInsert, ha, keysOf_cons]
      · rcases List.mem_cons.1 h with rfl | h
        · exact absurd rfl ha
        · simp [mapInsert, ha, keysOf_cons, ih h]

theorem keysOf_mapInsert_not_mem {mp : List (Int × Nat)} {k : Int} (v : Nat)
    (h : k ∉ keysOf mp) : keysOf (mapInsert mp k v) = keysOf mp ++ [k] := by
  induction mp with
  | nil => simp [mapInsert, keysOf]
  | cons ab rest ih =>
      obtain ⟨a, b⟩ := ab
      rw [keysOf_cons] at h
      obtain ⟨hak, hrest⟩ := List.ne_and_not_mem_of_not_mem_cons h
      have ha : ¬a = k := fun e => hak e.symm
      simp [mapInsert, ha, keysOf_cons, ih hrest]

theorem mem_keysOf_mapInsert {mp : List (Int × Nat)} {k a : Int} (v : Nat) :
    a ∈ keysOf (mapInsert mp k v) ↔ a = k ∨ a ∈ keysOf mp := by
  by_cases h : k ∈ keysOf mp
  · rw [keysOf_mapInsert_mem v h]
    constructor
    · exact Or.inr
    · rintro (rfl | hm)
      · exact h
      · exact hm
  · rw [keysOf_mapInsert_not_mem v h]
    simp [List.mem_append]
    tauto

theorem nodup_keysOf_mapInsert {mp : List (Int × Nat)} {k : Int} (v : Nat)
    (h : (keysOf mp).Nodup) : (keysOf (mapInsert mp k v)).Nodup := by
  by_cases hk : k ∈ keysOf mp
  · rw [keysOf_mapInsert_mem v hk]
    exact h
  · rw [keysOf_mapInsert_not_mem v hk]
    simp [List.nodup_append, h, hk]

theorem keysOf_mapErase (mp : List (Int × Nat)) (k : Int) :
    keysOf (mapErase mp k) = (keysOf mp).erase k := by
  induction mp with
  | nil => rfl
  | cons ab rest ih =>
      obtain ⟨a, b⟩ := ab
      by_cases ha : a = k
      · simp [mapErase, ha, keysOf_cons, List.erase_cons]
      · simp [mapErase, ha, keysOf_cons, List.erase_cons, ih]

/-! ## Lemmas: the manager invariant under `AddTable` / `RemoveTable` -/

/-- Reachable-state invariant of the table-tracking state: `tableIDs` is
strictly ascending, `rtsMap` is a real (non-nil) map with no duplicate keys,
and its key set is exactly the content of `tableIDs`. -/
def StateInv (m : ManagerImpl) : Prop :=
  List.Sorted (· < ·) m.tableIDs ∧
  ∃ mp, m.rtsMap = some mp ∧ (keysOf mp).Nodup ∧
    ∀ t : Int, t ∈ keysOf mp ↔ t ∈ m.tableIDs

theorem stateInv_enabledManager (cfg : ConsistentConfig) (w : RedoLogWriter) :
    StateInv (enabledManager cfg w) := by
  refine ⟨by simp [enabledManager], [], rfl, by simp [keysOf], ?_⟩
  simp [enabledManager, keysOf]

theorem stateInv_freshManager (w : RedoLogWriter) : StateInv (freshManager w) := by
  refine ⟨by simp [freshManager, enabledManager], [], rfl, by simp [keysOf], ?_⟩
  simp [freshManager, enabledManager, keysOf]

theorem addTable_mem_noop {m : ManagerImpl} {t : Int} (s : Nat)
    (hsorted : List.Sorted (· < ·) m.tableIDs) (hmem : t ∈ m.tableIDs) :
    AddTable m t s = some m := by
  unfold AddTable
  rw [if_pos ((sortSearchGe_found_iff hsorted).2 hmem)]

theorem removeTable_not_mem_noop {m : ManagerImpl} {t : Int}
    (hmem : t ∉ m.tableIDs) : RemoveTable m t = m := by
  unfold RemoveTable
  rw [if_neg ?_]
  intro hfound
  exact hmem (List.getElem?_mem hfound)

theorem stateInv_addTable {m : ManagerImpl} (t : Int) (s : Nat)
    (h : StateInv m) : ∃ mNext, AddTable m t s = some mNext ∧ StateInv mNext := by
  obtain ⟨hsorted, mp, hmp, hnodup, hkeys⟩ := h
  by_cases hmem : t ∈ m.tableIDs
  · refine ⟨m, addTable_mem_noop s hsorted hmem, hsorted, mp, hmp, hnodup, hkeys⟩
  · have hfound : ¬m.tableIDs[sortSearchGe m.tableIDs t]? = some t := by
      rw [sortSearchGe_found_iff hsorted]
      exact hmem
    refine ⟨{ m with tableIDs := addTableList m.tableIDs t, rtsMap := some (mapInsert mp t s) }, ?_, ?_⟩
    · unfold AddTable
      rw [if_neg hfound, hmp]
    · refine ⟨sorted_addTableList hsorted, mapInsert mp t s, rfl, ?_, ?_⟩
      · exact nodup_keysOf_mapInsert s hnodup
      · intro a
        rw [mem_keysOf_mapInsert s, mem_addTableList, hkeys a]

theorem stateInv_removeTable {m : ManagerImpl} (t : Int)
    (h : StateInv m) : StateInv (RemoveTable m t) := by
  obtain ⟨hsorted, mp, hmp, hnodup, hkeys⟩ := h
  by_cases hmem : t ∈ m.tableIDs
  · have hfound : m.tableIDs[sortSearchGe m.tableIDs t]? = some t :=
      (sortSearchGe_found_iff hsorted).2 hmem
    unfold RemoveTable
    rw [if_pos hfound]
    refine ⟨sorted_removeTableList hsorted, mapErase mp t, by rw [hmp]; rfl, ?_, ?_⟩
    · rw [keysOf_mapErase]
      exact hnodup.erase t
    · intro a
      rw [keysOf_mapErase, hnodup.mem_erase_iff, mem_removeTableList hsorted,
        hkeys a]
      tauto
  · rw [removeTable_not_mem_noop hmem]
    exact ⟨hsorted, mp, hmp, hnodup, hkeys⟩

theorem stateInv_applyOps {ops : List RedoOp} {m : ManagerImpl}
    (h : StateInv m) : ∃ mNext, applyOps ops m = some mNext ∧ StateInv mNext := by
  induction ops generalizing m with
  | nil => exact ⟨m, rfl, h⟩
  | cons op ops ih =>
      cases op with
      | add t s =>
          obtain ⟨m1, hm1, hinv1⟩ := stateInv_addTable t s h
          obtain ⟨m2, hm2, hinv2⟩ := ih hinv1
          exact ⟨m2, by simp [applyOps, applyOp, hm1, hm2], hinv2⟩
      | remove t =>
          obtain ⟨m2, hm2, hinv2⟩ := ih (stateInv_removeTable t h)
          exact ⟨m2, by simp [applyOps, applyOp, hm2], hinv2⟩

/-! ## Lemmas: the published minimum -/

theorem minFoldAux_mono {r1 r2 : List (Int × Nat)}
    (hrel : List.Forall₂ (fun p q => p.1 = q.1 ∧ p.2 ≤ q.2) r1 r2) :
    ∀ a b : Nat, a ≤ b →
      r1.foldl (fun acc kv => if kv.2 < acc then kv.2 else acc) a ≤
        r2.foldl (fun acc kv => if kv.2 < acc then kv.2 else acc) b := by
  induction hrel with
  | nil => intro a b hab; simpa using hab
  | cons hpq _ ih =>
      intro a b hab
      obtain ⟨_, hv⟩ := hpq
      simp only [List.foldl_cons]
      apply ih
      split <;> split <;> omega

theorem minFold_mono {r1 r2 : List (Int × Nat)}
    (hrel : List.Forall₂ (fun p q => p.1 = q.1 ∧ p.2 ≤ q.2) r1 r2) :
    minFold r1 ≤ minFold r2 :=
  minFoldAux_mono hrel _ _ le_rfl

theorem updateWithReport_min {report : List (Int × Nat)} {m mNext : ManagerImpl}
    (h : updateWithReport report m = some mNext) :
    mNext.minResolvedTs = minFold report := by
  unfold updateWithReport at h
  cases hmp : m.rtsMap with
  | some mp =>
      rw [hmp] at h
      cases h
      rfl
  | none =>
      rw [hmp] at h
      by_cases he : report.isEmpty
      · rw [if_pos he] at h
        cases h
        rfl
      · rw [if_neg he] at h
        cases h

/-! ## Claim theorems: redo-log manager -/

/-- C2: for every sequence of `AddTable`/`RemoveTable` calls on a redo
manager, the key set of `rtsMap` equals the content of `tableIDs`, and
`tableIDs` is strictly ascending; a duplicate `AddTable` and an absent
`RemoveTable` both leave the state unchanged. -/
theorem redo_table_tracking_invariant (w : RedoLogWriter) (ops : List RedoOp)
    (m : ManagerImpl) (h : applyOps ops (freshManager w) = some m) :
    List.Sorted (· < ·) m.tableIDs ∧
    (∀ mp, m.rtsMap = some mp → ∀ t : Int, t ∈ keysOf mp ↔ t ∈ m.tableIDs) ∧
    (∀ (t : Int) (s : Nat), t ∈ m.tableIDs → AddTable m t s = some m) ∧
    (∀ t : Int, t ∉ m.tableIDs → RemoveTable m t = m) := by
  obtain ⟨mNext, hNext, hinv⟩ := stateInv_applyOps (stateInv_freshManager w)
  have hm : m = mNext := by
    have := hNext.symm.trans h
    exact (Option.some.inj this).symm
  subst hm
  obtain ⟨hsorted, mp0, hmp0, _, hkeys0⟩ := hinv
  refine ⟨hsorted, ?_, ?_, ?_⟩
  · intro mp hmp t
    have : mp = mp0 := Option.some.inj (hmp.symm.trans hmp0)
    subst this
    exact hkeys0 t
  · intro t s hmem
    exact addTable_mem_noop s hsorted hmem
  · intro t hmem
    exact removeTable_not_mem_noop hmem

/-- Witness for C2: the concrete call sequence
`AddTable(1,100); AddTable(2,200); RemoveTable(1)`. -/
theorem redo_table_tracking_invariant_witness :
    List.Sorted (· < ·)
      ({ freshManager blackHoleWriter with
          tableIDs := [2], rtsMap := some [(2, 200)] } : ManagerImpl).tableIDs ∧
    (∀ mp,
      ({ freshManager blackHoleWriter with
          tableIDs := [2], rtsMap := some [(2, 200)] } : ManagerImpl).rtsMap = some mp →
      ∀ t : Int, t ∈ keysOf mp ↔ t ∈
        ({ freshManager blackHoleWriter with
            tableIDs := [2], rtsMap := some [(2, 200)] } : ManagerImpl).tableIDs) ∧
    (∀ (t : Int) (s : Nat),
      t ∈ ({ freshManager blackHoleWriter with
              tableIDs := [2], rtsMap := some [(2, 200)] } : ManagerImpl).tableIDs →
      AddTable { freshManager blackHoleWriter with
                  tableIDs := [2], rtsMap := some [(2, 200)] } t s =
        some { freshManager blackHoleWriter with
                tableIDs := [2], rtsMap := some [(2, 200)] }) ∧
    (∀ t : Int,
      t ∉ ({ freshManager blackHoleWriter with
              tableIDs := [2], rtsMap := some [(2, 200)] } : ManagerImpl).tableIDs →
      RemoveTable { freshManager blackHoleWriter with
                     tableIDs := [2], rtsMap := some [(2, 200)] } t =
        { freshManager blackHoleWriter with
           tableIDs := [2], rtsMap := some [(2, 200)] }) :=
  redo_table_tracking_invariant blackHoleWriter
    [RedoOp.add 1 100, RedoOp.add 2 200, RedoOp.remove 1] _ rfl

/-- C1 is refuted: the published minimum is *not* monotone.  With a writer
whose per-table resolved timestamps never change (table 1 at 50, table 2 at
160), the sequence `AddTable(2); tick; AddTable(1); tick` makes
`GetMinResolvedTs` go from 160 down to 50, because `updateTableResolvedTs`
stores the fresh minimum unconditionally. -/
theorem redo_minResolvedTs_not_monotone :
    ((do
        let m1 ← AddTable (freshManager decWriter) 2 0
        tickMin m1) = some 160) ∧
    ((do
        let m1 ← AddTable (freshManager decWriter) 2 0
        let m2 ← tickOk m1
        let m3 ← AddTable m2 1 0
        tickMin m3) = some 50) ∧ 50 < 160 :=
  ⟨by decide, by decide, by decide⟩

/-- C1 (amended): across consecutive ticks whose writer reports range over
the same tables with per-table non-decreasing values, the published
`GetMinResolvedTs` is non-decreasing. -/
theorem redo_minResolvedTs_monotone_dominating (m m1 m2 : ManagerImpl)
    (r1 r2 : List (Int × Nat))
    (hrel : List.Forall₂ (fun p q => p.1 = q.1 ∧ p.2 ≤ q.2) r1 r2)
    (h1 : updateWithReport r1 m = some m1)
    (h2 : updateWithReport r2 m1 = some m2) :
    GetMinResolvedTs m1 ≤ GetMinResolvedTs m2 := by
  have e1 := updateWithReport_min h1
  have e2 := updateWithReport_min h2
  unfold GetMinResolvedTs
  rw [e1, e2]
  exact minFold_mono hrel

/-- Witness for the amended C1: reports `[(1, 5)]` then `[(1, 7)]`. -/
theorem redo_minResolvedTs_monotone_dominating_witness :
    GetMinResolvedTs monoM1 ≤ GetMinResolvedTs monoM2 :=
  redo_minResolvedTs_monotone_dominating monoM0 monoM1 monoM2 [(1, 5)] [(1, 7)]
    (List.Forall₂.cons ⟨rfl, by omega⟩ List.Forall₂.nil) rfl rfl

/-- C5: tables `{1:100, 2:200, 3:150}` are added, the writer reports
`{1:120, 2:220, 3:160}`; one tick later `GetMinResolvedTs` is 120, and
after `RemoveTable(1)` the next tick yields 160. -/
theorem redo_min_ts_scenario :
    ((do
        let m1 ← AddTable (freshManager scenarioWriter) 1 100
        let m2 ← AddTable m1 2 200
        let m3 ← AddTable m2 3 150
        tickMin m3) = some 120) ∧
    ((do
        let m1 ← AddTable (freshManager scenarioWriter) 1 100
        let m2 ← AddTable m1 2 200
        let m3 ← AddTable m2 3 150
        let m4 ← tickOk m3
        tickMin (RemoveTable m4 1)) = some 160) :=
  ⟨by decide, by decide⟩

/-- C10: with no tracked tables and an empty writer report, a background
tick stores `math.MaxUint64 = 2^64 - 1`, which the next
`GetMinResolvedTs` returns. -/
theorem redo_empty_tick_publishes_max (m : ManagerImpl) (w : RedoLogWriter)
    (hw : m.writer = some w) (ht : m.tableIDs = [])
    (hr : w.getCurrentResolvedTs [] = .ok []) :
    tickMin m = some (2 ^ 64 - 1) := by
  cases hmp : m.rtsMap with
  | some mp =>
      simp [tickMin, updateTableResolvedTs, hw, ht, hr, updateWithReport, hmp,
        GetMinResolvedTs, minFold]
  | none =>
      simp [tickMin, updateTableResolvedTs, hw, ht, hr, updateWithReport, hmp,
        GetMinResolvedTs, minFold]

/-- Witness for C10: a fresh manager over the blackhole writer. -/
theorem redo_empty_tick_publishes_max_witness :
    tickMin (freshManager blackHoleWriter) = some (2 ^ 64 - 1) :=
  redo_empty_tick_publishes_max (freshManager blackHoleWriter) blackHoleWriter
    rfl rfl rfl

/-- C3 is refuted: a disabled manager's operations are not success-returning
no-ops.  None of them checks `enabled`; each emit/flush dereferences the nil
writer (a panic, `none`), and `AddTable` writes the nil `rtsMap` (also a
panic) instead of leaving the state unchanged. -/
theorem redo_disabled_manager_panics :
    Enabled disabledManager = false ∧
    EmitRowChangedEvents disabledManager 1 [⟨1, 5⟩] = none ∧
    FlushLog disabledManager 1 10 = none ∧
    EmitDDLEvent disabledManager ⟨1, "create table t"⟩ = none ∧
    FlushResolvedAndCheckpointTs disabledManager 5 4 = none ∧
    AddTable disabledManager 1 100 = none :=
  ⟨rfl, rfl, rfl, rfl, rfl, rfl⟩

/-- C3 (amended): the public operations never consult `enabled` — their
results are identical for any value of the flag, the emit/flush family is a
bare writer delegation (so a nil writer panics rather than returning
success), and only callers checking `Enabled()` make the disabled manager
behave as a no-op. -/
theorem redo_ops_ignore_enabled (m : ManagerImpl) (e : Bool) (tid : Int)
    (rows : List RowChangedEvent) (rts cts s : Nat) (ddl : DDLEvent) :
    EmitRowChangedEvents { m with enabled := e } tid rows =
      EmitRowChangedEvents m tid rows ∧
    FlushLog { m with enabled := e } tid rts = FlushLog m tid rts ∧
    EmitDDLEvent { m with enabled := e } ddl = EmitDDLEvent m ddl ∧
    FlushResolvedAndCheckpointTs { m with enabled := e } rts cts =
      FlushResolvedAndCheckpointTs m rts cts ∧
    AddTable { m with enabled := e } tid s =
      (AddTable m tid s).map (fun mm => { mm with enabled := e }) ∧
    RemoveTable { m with enabled := e } tid =
      { RemoveTable m tid with enabled := e } ∧
    (m.writer = none →
      EmitRowChangedEvents m tid rows = none ∧ FlushLog m tid rts = none) := by
  refine ⟨rfl, rfl, rfl, rfl, ?_, ?_, ?_⟩
  · show AddTable { m with enabled := e } tid s = _
    unfold AddTable
    have h1 : ({ m with enabled := e } : ManagerImpl).tableIDs = m.tableIDs := rfl
    have h2 : ({ m with enabled := e } : ManagerImpl).rtsMap = m.rtsMap := rfl
    rw [h1, h2]
    by_cases hc : m.tableIDs[sortSearchGe m.tableIDs tid]? = some tid
    · rw [if_pos hc, if_pos hc]
      rfl
    · rw [if_neg hc, if_neg hc]
      cases m.rtsMap <;> rfl
  · show RemoveTable { m with enabled := e } tid = _
    unfold RemoveTable
    have h1 : ({ m with enabled := e } : ManagerImpl).tableIDs = m.tableIDs := rfl
    have h2 : ({ m with enabled := e } : ManagerImpl).rtsMap = m.rtsMap := rfl
    rw [h1, h2]
    by_cases hc : m.tableIDs[sortSearchGe m.tableIDs tid]? = some tid
    · rw [if_pos hc, if_pos hc]
    · rw [if_neg hc, if_neg hc]
  · intro hw
    unfold EmitRowChangedEvents FlushLog
    rw [hw]
    exact ⟨rfl, rfl⟩

/-- Witness for the amended C3: the disabled manager of `NewManager`. -/
theorem redo_ops_ignore_enabled_witness :
    EmitRowChangedEvents disabledManager 1 [] = none ∧
    FlushLog disabledManager 1 0 = none :=
  (redo_ops_ignore_enabled disabledManager true 1 [] 0 0 0 ⟨0, ""⟩).2.2.2.2.2.2 rfl

/-- C4 is refuted: `NewManager` accepts a config whose level is invalid.
With level `"bogus"` (rejected by `IsValidConsistentLevel`) and storage
`blackhole`, construction succeeds and even yields an *enabled* manager. -/
theorem newManager_accepts_invalid_level :
    IsValidConsistentLevel "bogus" = false ∧
    NewManager blackHoleWriter (fun _ => true) (some ⟨"bogus", "blackhole", 0, 0, ""⟩) =
      .ok (enabledManager ⟨"bogus", "blackhole", 0, 0, ""⟩ blackHoleWriter) ∧
    Enabled (enabledManager ⟨"bogus", "blackhole", 0, 0, ""⟩ blackHoleWriter) = true :=
  ⟨rfl, rfl, rfl⟩

/-- C4 (amended): `NewManager` validates only the storage (and the S3 URI),
never the level: construction on a non-nil config succeeds exactly when the
level is `normal` (disabled short-circuit) or the storage passes
`IsValidConsistentStorage` with a parseable S3 URI; level `normal` and a nil
config both yield the disabled manager. -/
theorem newManager_validates_storage_not_level (w : RedoLogWriter)
    (p : String → Bool) (cfg : ConsistentConfig) :
    (exceptIsOk (NewManager w p (some cfg)) = true ↔
      (cfg.level = "normal" ∨
        (IsValidConsistentStorage cfg.storage = true ∧
          (cfg.storage = "s3" → p cfg.s3URI = true)))) ∧
    (cfg.level = "normal" → NewManager w p (some cfg) = .ok disabledManager) ∧
    NewManager w p none = .ok disabledManager ∧
    Enabled disabledManager = false := by
  refine ⟨?_, ?_, rfl, rfl⟩
  · by_cases hl : cfg.level = "normal"
    · simp [NewManager, hl, exceptIsOk]
    · simp only [NewManager]
      rw [if_neg hl]
      by_cases hb : cfg.storage = "blackhole"
      · rw [if_pos hb, hb]
        constructor
        · intro _
          refine Or.inr ⟨by decide, ?_⟩
          intro hs
          exact absurd hs (by decide)
        · intro _
          rfl
      · rw [if_neg hb]
        by_cases hls : cfg.storage = "local" ∨ cfg.storage = "s3"
        · rw [if_pos hls]
          rcases hls with hlo | hs3
          · rw [if_neg ?side]
            case side =>
              rw [hlo]
              rintro ⟨hcontra, _⟩
              exact absurd hcontra (by decide)
            rw [hlo]
            constructor
            · intro _
              refine Or.inr ⟨by decide, ?_⟩
              intro hs
              exact absurd hs (by decide)
            · intro _
              rfl
          · by_cases hp : p cfg.s3URI = true
            · rw [if_neg ?pside]
              case pside =>
                rintro ⟨_, hfalse⟩
                rw [hp] at hfalse
                cases hfalse
              rw [hs3]
              constructor
              · intro _
                exact Or.inr ⟨by decide, fun _ => hp⟩
              · intro _
                rfl
            · rw [if_pos ⟨hs3, by revert hp; cases p cfg.s3URI <;> simp⟩]
              constructor
              · intro hfalse
                exact absurd hfalse (by simp [exceptIsOk])
              · rintro (hn | ⟨_, himp⟩)
                · exact absurd hn hl
                · exact absurd (himp hs3) hp
        · rw [if_neg hls]
          constructor
          · intro hfalse
            exact absurd hfalse (by simp [exceptIsOk])
          · rintro (hn | ⟨hv, _⟩)
            · exact absurd hn hl
            · have hdisj : (cfg.storage = "local" ∨ cfg.storage = "s3") ∨
                  cfg.storage = "blackhole" := by
                simpa [IsValidConsistentStorage] using hv
              rcases hdisj with (h1 | h2) | h3
              · exact (hls (Or.inl h1)).elim
              · exact (hls (Or.inr h2)).elim
              · exact (hb h3).elim
  · intro hl
    simp only [NewManager]
    rw [if_pos hl]

/-- Witness for the amended C4: a `normal`-level config builds the disabled
manager. -/
theorem newManager_validates_storage_not_level_witness :
    NewManager blackHoleWriter (fun _ => true) (some ⟨"normal", "", 0, 0, ""⟩) =
      .ok disabledManager :=
  (newManager_validates_storage_not_level blackHoleWriter (fun _ => true)
    ⟨"normal", "", 0, 0, ""⟩).2.1 rfl

/-! ## Claim theorems: table actor -/

/-- C9: after `Barrier(2)` followed by `Stop` the actor's `stopped` flag is
true, and a stopped actor is final — any further mailbox content leaves the
state untouched (the one-way transition; delivery delay is abstracted into
the position of `Stop` in the processed message list). -/
theorem actor_stop_semantics :
    (actorRun (newActorState 1)
      [ActorMessage.barrier 2, ActorMessage.stop]).stopped = true ∧
    ∀ (s : TableActorState) (msgs : List ActorMessage),
      s.stopped = true → actorRun s msgs = s := by
  constructor
  · rfl
  · intro s msgs h
    induction msgs with
    | nil => rfl
    | cons msg rest ih =>
        have hh : actorHandle s msg = s := by simp [actorHandle, h]
        show List.foldl actorHandle (actorHandle s msg) rest = s
        rw [hh]
        exact ih

/-- Witness for C9: a stopped actor ignores a barrier and a tick. -/
theorem actor_stop_semantics_witness :
    actorRun ⟨true, 5, 1⟩ [ActorMessage.barrier 9, ActorMessage.tick] =
      ⟨true, 5, 1⟩ :=
  actor_stop_semantics.2 ⟨true, 5, 1⟩
    [ActorMessage.barrier 9, ActorMessage.tick] rfl

/-! ## Claim theorems: sink parameters -/

/-- C6: `p1 = defaultParams.Clone()` and `p2 = p1.Clone()` mutated in
`changefeedID`, `batchReplaceEnabled` and `maxTxnRow`: `p1` still equals the
default record and `p2` differs from it exactly in the three mutated
fields.  (Clone isolation: in this pure embedding mutation is record update,
so the clone shares no state with its origin by construction.) -/
theorem sink_params_clone_isolation :
    defaultParams.Clone =
      ({ workerCount := 16, maxTxnRow := 256, tidbTxnMode := "optimistic",
         batchReplaceEnabled := true, batchReplaceSize := 20,
         readTimeout := "2m", writeTimeout := "2m", dialTimeout := "2s",
         safeMode := false, timezone := "", changefeedID := "",
         captureAddr := "", timeoutProvided := false } : sinkParams) ∧
    ({ defaultParams.Clone.Clone with
        changefeedID := "123", batchReplaceEnabled := false,
        maxTxnRow := 1 } : sinkParams) =
      { workerCount := 16, maxTxnRow := 1, tidbTxnMode := "optimistic",
        batchReplaceEnabled := false, batchReplaceSize := 20,
        readTimeout := "2m", writeTimeout := "2m", dialTimeout := "2s",
        safeMode := false, timezone := "", changefeedID := "123",
        captureAddr := "", timeoutProvided := false } :=
  ⟨rfl, rfl⟩

theorem exceptBindOk {α β : Type} {e : Except SinkErr α} {f : α → Except SinkErr β}
    {b : β} (h : e >>= f = .ok b) : ∃ a, e = .ok a ∧ f a = .ok b := by
  cases e with
  | ok a => exact ⟨a, rfl, h⟩
  | error err => simp [Bind.bind, Except.bind] at h

theorem parse_ok_timezone {u : SinkURI} {opts : List (String × String)}
    {p : sinkParams} (h : parseSinkURIToParams (some u) opts = .ok p) :
    p.timezone = getTimezoneParam u.query := by
  simp only [parseSinkURIToParams] at h
  by_cases hs : u.scheme ≠ "mysql" ∧ u.scheme ≠ "tidb"
  · rw [if_pos hs] at h
    cases h
  · rw [if_neg hs] at h
    obtain ⟨wc, hwc, h⟩ := exceptBindOk h
    obtain ⟨mtr, hmtr, h⟩ := exceptBindOk h
    obtain ⟨bre, hbre, h⟩ := exceptBindOk h
    obtain ⟨brs, hbrs, h⟩ := exceptBindOk h
    obtain ⟨sm, hsm, h⟩ := exceptBindOk h
    obtain ⟨rt, hrt, h⟩ := exceptBindOk h
    obtain ⟨wt, hwt, h⟩ := exceptBindOk h
    obtain ⟨dt, hdt, h⟩ := exceptBindOk h
    by_cases htls : tlsOk u.query = false
    · rw [if_pos htls] at h
      cases h
    · rw [if_neg htls] at h
      rw [← Except.ok.inj h]

theorem dsn_time_zone_key (p : sinkParams) :
    dsnHasKey "time_zone" (generateDSNByParams [] p) = true ↔ p.timezone ≠ "" := by
  by_cases htz : p.timezone = "" <;>
    by_cases hto : p.timeoutProvided <;>
      simp [dsnHasKey, generateDSNByParams, htz, hto]

/-- C7: for a successfully parsed mysql sink URI, `time-zone=Asia/Shanghai`
yields the double-quoted `"Asia/Shanghai"`, an explicitly empty value the
empty string, and an absent key the quoted `"UTC"`; the rendered DSN carries
`time_zone` exactly when the timezone parameter is non-empty. -/
theorem sink_uri_timezone (q opts : List (String × String)) (p : sinkParams)
    (h : parseSinkURIToParams (some ⟨"mysql", q⟩) opts = .ok p) :
    ((List.lookup "time-zone" q = some "Asia/Shanghai" →
        p.timezone = "\"Asia/Shanghai\"") ∧
     (List.lookup "time-zone" q = some "" → p.timezone = "") ∧
     (List.lookup "time-zone" q = none → p.timezone = "\"UTC\"")) ∧
    (dsnHasKey "time_zone" (generateDSNByParams [] p) = true ↔
      p.timezone ≠ "") := by
  have htz := parse_ok_timezone h
  refine ⟨⟨?_, ?_, ?_⟩, dsn_time_zone_key p⟩
  · intro hl
    rw [htz]
    unfold getTimezoneParam
    rw [hl]
    rfl
  · intro hl
    rw [htz]
    unfold getTimezoneParam
    rw [hl]
    rfl
  · intro hl
    rw [htz]
    unfold getTimezoneParam
    rw [hl]

/-- Witness for C7: the three concrete URIs of the timezone test. -/
theorem sink_uri_timezone_witness :
    shanghaiParams.timezone = "\"Asia/Shanghai\"" ∧
    (parseSinkURIToParams
        (some ⟨"mysql", [("time-zone", ""), ("worker-count", "32")]⟩) [] =
      .ok { defaultParams with workerCount := 32, timezone := "" }) ∧
    (parseSinkURIToParams (some ⟨"mysql", [("worker-count", "32")]⟩) [] =
      .ok { defaultParams with workerCount := 32, timezone := "\"UTC\"" }) :=
  ⟨(sink_uri_timezone [("time-zone", "Asia/Shanghai"), ("worker-count", "32")]
      [] shanghaiParams rfl).1.1 rfl, rfl, rfl⟩

theorem dsn_timeout_key (p : sinkParams) :
    dsnHasKey "timeout" (generateDSNByParams [] p) = true ↔
      p.timeoutProvided = true := by
  by_cases htz : p.timezone = "" <;>
    by_cases hto : p.timeoutProvided <;>
      simp [dsnHasKey, generateDSNByParams, htz, hto]

/-- C8: the rendered DSN always carries `tidb_txn_mode`, `readTimeout`,
`writeTimeout` and `allow_auto_random_explicit_insert=1`; with default
parameters the values are `optimistic`, `2m`, `2m`; `timeout` appears (on an
empty base DSN) exactly when the user supplied it, and the
`read-timeout=4m&write-timeout=5m&timeout=3m` URI renders
`readTimeout=4m`, `writeTimeout=5m`, `timeout=3m`. -/
theorem generate_dsn_required_params (base : List (String × String))
    (p : sinkParams) :
    ("tidb_txn_mode", p.tidbTxnMode) ∈ generateDSNByParams base p ∧
    ("readTimeout", p.readTimeout) ∈ generateDSNByParams base p ∧
    ("writeTimeout", p.writeTimeout) ∈ generateDSNByParams base p ∧
    ("allow_auto_random_explicit_insert", "1") ∈ generateDSNByParams base p ∧
    (("tidb_txn_mode", "optimistic") ∈ generateDSNByParams base defaultParams.Clone ∧
     ("readTimeout", "2m") ∈ generateDSNByParams base defaultParams.Clone ∧
     ("writeTimeout", "2m") ∈ generateDSNByParams base defaultParams.Clone) ∧
    (dsnHasKey "timeout" (generateDSNByParams [] p) = true ↔
      p.timeoutProvided = true) ∧
    (parseSinkURIToParams
        (some ⟨"mysql",
          [("read-timeout", "4m"), ("write-timeout", "5m"), ("timeout", "3m")]⟩)
        [] = .ok timeoutParams ∧
     ("readTimeout", "4m") ∈ generateDSNByParams base timeoutParams ∧
     ("writeTimeout", "5m") ∈ generateDSNByParams base timeoutParams ∧
     ("timeout", "3m") ∈ generateDSNByParams base timeoutParams) := by
  refine ⟨?_, ?_, ?_, ?_, ⟨?_, ?_, ?_⟩, dsn_timeout_key p, rfl, ?_, ?_, ?_⟩
  · unfold generateDSNByParams
    split_ifs <;> simp
  · unfold generateDSNByParams
    split_ifs <;> simp
  · unfold generateDSNByParams
    split_ifs <;> simp
  · unfold generateDSNByParams
    split_ifs <;> simp
  · simp [generateDSNByParams, sinkParams.Clone, defaultParams]
  · simp [generateDSNByParams, sinkParams.Clone, defaultParams]
  · simp [generateDSNByParams, sinkParams.Clone, defaultParams]
  · simp [generateDSNByParams, timeoutParams]
  · simp [generateDSNByParams, timeoutParams]
  · simp [generateDSNByParams, timeoutParams]

/-- Witness for C8: the default parameters over an empty base DSN. -/
theorem generate_dsn_required_params_witness :
    ("tidb_txn_mode", defaultParams.tidbTxnMode) ∈
      generateDSNByParams [] defaultParams ∧
    ("allow_auto_random_explicit_insert", "1") ∈
      generateDSNByParams [] defaultParams :=
  ⟨(generate_dsn_required_params [] defaultParams).1,
   (generate_dsn_required_params [] defaultParams).2.2.2.1⟩

end Ticdc
